import Mathlib

/-!
Shallow embedding of `src/app.py`, a Streamlit dashboard over a table of
firm-level digital-transformation-index observations (one row per company
per year).  The presentation layer (Streamlit/Plotly calls) is out of scope;
the embedded parts are the loader's path probing, the preprocessing of the
table, the query selectors, and the pandas aggregations (rank, bucketed
distribution, per-year means, pct_change, groupby-mean/nlargest, pivot keys).

Index values are embedded as rationals (the Python floats); years as
integers; stock codes and company names as strings, a missing company name
as `none`.
-/

namespace DTIApp

/-- One observation row of the spreadsheet: 股票代码 (stock code, text after
the app's `astype(str)` coercion), 企业名称 (company name, `none` when the
spreadsheet cell is missing / NaN), 年份 (year), 数字化转型指数 (index). -/
structure Row where
  stockCode : String
  companyName : Option String
  year : Int
  indexValue : ℚ
deriving DecidableEq, Repr

/-- The sentinel company name `'未知企业'` ("unknown entity") used by
`fillna` on line 40 and as `dict.get` default on lines 54 and 60. -/
def sentinel : String := "未知企业"

/-- Lines 39-40 of app.py: `df['股票代码'] = df['股票代码'].astype(str)` and
`df['企业名称'] = df['企业名称'].fillna('未知企业')`.  The code column is
already text in the embedding, and `astype(str)` on a text column is the
identity, so only the `fillna` is visible: every missing name becomes the
sentinel. -/
def preprocess (rows : List Row) : List Row :=
  rows.map fun r => { r with companyName := some (r.companyName.getD sentinel) }

/-- Stable insertion step: `x` is placed before the first element `y` with
`le x y`; for a reflexive `le` this keeps `x` (the originally earlier
element) before elements it ties with, which is the stability pandas'
sorts and `nlargest(keep='first')` provide. -/
def insertLe (le : α → α → Bool) (x : α) : List α → List α
  | [] => [x]
  | y :: ys => if le x y then x :: y :: ys else y :: insertLe le x ys

/-- Stable insertion sort by the boolean relation `le`. -/
def sortLe (le : α → α → Bool) (l : List α) : List α :=
  l.foldr (insertLe le) []

/-- `pandas.unique` order: distinct elements, first occurrence kept. -/
def dedupFirst [DecidableEq α] : List α → List α
  | [] => []
  | x :: xs => x :: (dedupFirst xs).filter (fun a => decide (a ≠ x))

/-- Lexicographic code-point comparison of character lists: the order
Python's `sorted` uses on strings. -/
def charsLe : List Char → List Char → Bool
  | [], _ => true
  | _ :: _, [] => false
  | c :: cs, d :: ds => if c < d then true else if d < c then false else charsLe cs ds

/-- Python's `<=` on strings: lexicographic on code points. -/
def strLe (a b : String) : Bool :=
  charsLe a.data b.data

/-- Line 42: `available_stocks = sorted(df['股票代码'].unique())` —
sorted (ascending, lexicographic) distinct stock codes. -/
def availableStocks (rows : List Row) : List String :=
  sortLe strLe (dedupFirst (rows.map (·.stockCode)))

/-- Line 43: `available_years = sorted(df['年份'].unique())`. -/
def availableYears (rows : List Row) : List Int :=
  sortLe (fun a b => decide (a ≤ b)) (dedupFirst (rows.map (·.year)))

/-- Line 44 applied to the raw table: the app first preprocesses `df`
(lines 39-40) and then builds
`stock_name_map = df.groupby('股票代码')['企业名称'].first().to_dict()`.
`GroupBy.first` returns the first non-null name within the group (rows in
table order); the `filterMap` skips `none` exactly as `.first()` skips
nulls (after `preprocess` no name is `none`). -/
def stockNameMap (rows : List Row) (c : String) : Option String :=
  (((preprocess rows).filter (fun r => decide (r.stockCode = c))).filterMap
    (fun r => r.companyName)).head?

/-- Lines 54/60: `stock_name_map.get(stock_search, '未知企业')`. -/
def displayName (rows : List Row) (c : String) : String :=
  (stockNameMap rows c).getD sentinel

/-- Line 56: `company_all_data = df[df['股票代码'] == stock_search].sort_values('年份')`
(pandas `sort_values` is a stable sort, ascending). -/
def companyAllData (rows : List Row) (c : String) : List Row :=
  sortLe (fun a b => decide (a.year ≤ b.year))
    (rows.filter (fun r => decide (r.stockCode = c)))

/-- Line 57: `filtered_data = df[(df['股票代码'] == stock_search) & (df['年份'] == selected_year)]`. -/
def filteredData (rows : List Row) (c : String) (y : Int) : List Row :=
  rows.filter (fun r => decide (r.stockCode = c ∧ r.year = y))

/-- Line 71: the per-selection metrics block runs under
`if not filtered_data.empty:`; when the exact match is empty the metrics
are simply not rendered. -/
def metricsRendered (rows : List Row) (c : String) (y : Int) : Bool :=
  !(filteredData rows c y).isEmpty

/-- Line 77: `current_year_data = df[df['年份'] == selected_year]`. -/
def yearRows (rows : List Row) (y : Int) : List Row :=
  rows.filter (fun r => decide (r.year = y))

/-- Line 78: `current_rank = current_year_data[current_year_data['数字化转型指数'] >= v].shape[0]`
where `v = filtered_data['数字化转型指数'].iloc[0]`. -/
def currentRank (rows : List Row) (y : Int) (v : ℚ) : Nat :=
  ((yearRows rows y).filter (fun r => decide (v ≤ r.indexValue))).length

/-- Lines 101-103: `pd.cut(df['数字化转型指数'], bins=[0,20,40,60,80,100], labels=...)`.
`pd.cut` defaults to `right=True` and `include_lowest=False`, so the bins
are the right-closed intervals (0,20], (20,40], (40,60], (60,80], (80,100];
a value ≤ 0 or > 100 gets NaN (`none`). -/
def cutBucket (v : ℚ) : Option (Fin 5) :=
  if 0 < v ∧ v ≤ 20 then some 0
  else if 20 < v ∧ v ≤ 40 then some 1
  else if 40 < v ∧ v ≤ 60 then some 2
  else if 60 < v ∧ v ≤ 80 then some 3
  else if 80 < v ∧ v ≤ 100 then some 4
  else none

/-- Line 104: `distribution = df['指数区间'].value_counts()` — the count of
rows landing in bucket `i` (`value_counts` ignores NaN). -/
def distribution (rows : List Row) (i : Fin 5) : Nat :=
  (rows.filter (fun r => decide (cutBucket r.indexValue = some i))).length

/-- The sum of the five bucket counts of the distribution chart. -/
def bucketTotal (rows : List Row) : Nat :=
  distribution rows 0 + distribution rows 1 + distribution rows 2 +
    distribution rows 3 + distribution rows 4

/-- Mean of the index values of a list of rows (pandas `mean`). -/
def meanIndex (g : List Row) : ℚ :=
  (g.map (·.indexValue)).sum / (g.length : ℚ)

/-- Per-year mean, lines 111/161/173:
`df.groupby('年份')['数字化转型指数'].mean()` at year `y`. -/
def yearMean (rows : List Row) (y : Int) : ℚ :=
  meanIndex (yearRows rows y)

/-- The per-year mean series in ascending year order (groupby sorts its
keys ascending). -/
def yearlyMeans (rows : List Row) : List ℚ :=
  (availableYears rows).map (yearMean rows)

/-- Tail of pandas `Series.pct_change() * 100` given the previous value. -/
def pctChangeFrom (prev : ℚ) : List ℚ → List (Option ℚ)
  | [] => []
  | x :: xs => some ((x - prev) / prev * 100) :: pctChangeFrom x xs

/-- Line 174: `yearly_mean['变化率'] = yearly_mean['数字化转型指数'].pct_change() * 100`.
The first entry is NaN (`none`); entry `t` is `(m[t]-m[t-1])/m[t-1]*100`. -/
def pctChange : List ℚ → List (Option ℚ)
  | [] => []
  | x :: xs => none :: pctChangeFrom x xs

/-- All rows of one company (the group of `groupby('股票代码')` for key `c`). -/
def stockRows (rows : List Row) (c : String) : List Row :=
  rows.filter (fun r => decide (r.stockCode = c))

/-- `df.groupby('股票代码')['数字化转型指数'].mean()` at key `c`. -/
def stockMean (rows : List Row) (c : String) : ℚ :=
  meanIndex (stockRows rows c)

/-- The series `df.groupby('股票代码')['数字化转型指数'].mean()` as an
association list: groupby sorts its keys ascending, so the entries are in
ascending stock-code order. -/
def groupMeans (rows : List Row) : List (String × ℚ) :=
  (availableStocks rows).map (fun c => (c, stockMean rows c))

/-- `Series.nlargest(n)` (default `keep='first'`): the index labels of the
`n` largest values, values descending, ties kept in series order (stable). -/
def nlargestCodes (n : Nat) (l : List (String × ℚ)) : List String :=
  ((sortLe (fun a b => decide (b.2 ≤ a.2)) l).take n).map Prod.fst

/-- Line 126: `top_stocks = df.groupby('股票代码')['数字化转型指数'].mean().nlargest(30).index`. -/
def topStocks (rows : List Row) : List String :=
  nlargestCodes 30 (groupMeans rows)

/-- Line 133: `top20 = df.groupby('股票代码')['数字化转型指数'].mean().nlargest(20)` (its index). -/
def top20 (rows : List Row) : List String :=
  nlargestCodes 20 (groupMeans rows)

/-- Lines 123-124: the row index of
`df.pivot_table(values='数字化转型指数', index='股票代码', columns='年份', aggfunc='mean')`:
the sorted distinct grouping keys of the `index` column. -/
def pivotIndex (rows : List Row) : List String :=
  sortLe strLe (dedupFirst (rows.map (·.stockCode)))

/-- Lines 22-26: the fixed candidate data-file paths, in priority order. -/
def dataFiles : List String :=
  ["data.xlsx", "两版合并后的年报数据_完整版.xlsx", "data/两版合并后的年报数据_完整版.xlsx"]

/-- The loop of lines 28-30: return the parse of the first path that
exists; `ex` abstracts `os.path.exists` and `parse` abstracts
`pd.read_excel`. -/
def loadDataAux (ex : String → Bool) (parse : String → List Row) :
    List String → Option (List Row)
  | [] => none
  | p :: ps => if ex p then some (parse p) else loadDataAux ex parse ps

/-- Lines 20-33, `load_data`: probe the candidate paths in order; when none
exists the function falls through to `st.error(...)` and `return None`
(absence is signalled by `none`, no retry and no fetch). -/
def loadData (ex : String → Bool) (parse : String → List Row) : Option (List Row) :=
  loadDataAux ex parse dataFiles

/-- The registry as the spec describes it: the first NON-MISSING raw name
per id, skipping missing cells instead of first filling them with the
sentinel.  Written from the spec's words, to be compared with
`stockNameMap` (the code's pipeline: `fillna` then group-first). -/
def firstNonMissingName (rows : List Row) (c : String) : Option String :=
  ((rows.filter (fun r => decide (r.stockCode = c))).filterMap
    (fun r => r.companyName)).head?

/-- The grouped mean series as the spec's tie-break story describes it:
keys in order of first appearance in the table instead of the ascending
key order `groupby` actually produces.  Written from the spec's words, to
be compared with `groupMeans`. -/
def groupMeansFirstSeen (rows : List Row) : List (String × ℚ) :=
  (dedupFirst (rows.map (·.stockCode))).map (fun c => (c, stockMean rows c))

/-- A single row whose index value is exactly 0 (the lower bin edge). -/
def rowZero : Row := ⟨"X", some "x", 2000, 0⟩

/-- A table in which id "1" has a missing name in its first row and a real
name ("Acme") in a later row. -/
def rowsLateName : List Row :=
  [⟨"1", none, 2000, 50⟩, ⟨"1", some "Acme", 2001, 60⟩]

/-- The spec's own two-row example table: id 600003 with index 50 in 1998
and 60 in 1999. -/
def rowsExample : List Row :=
  [⟨"600003", some "A", 1998, 50⟩, ⟨"600003", some "A", 1999, 60⟩]

/-- Two companies with exactly equal mean index values, the
lexicographically larger code appearing first in the table. -/
def rowsTie : List Row :=
  [⟨"B", some "b", 2000, 50⟩, ⟨"A", some "a", 2000, 50⟩]

/-- The descending-value tie-aware ordering `nlargest` actually produces on
the key-sorted grouped series: values descending, and strictly ascending
key order between exact ties. -/
def rankRel (p q : String × ℚ) : Prop :=
  q.2 ≤ p.2 ∧ (p.2 = q.2 → strLe p.1 q.1 = true ∧ p.1 ≠ q.1)

/-! ### Helper lemmas on the sorting and dedup primitives -/

theorem perm_insertLe (le : α → α → Bool) (x : α) (l : List α) :
    (insertLe le x l).Perm (x :: l) := by
  induction l with
  | nil => exact List.Perm.refl _
  | cons y ys ih =>
    simp only [insertLe]
    split
    · exact List.Perm.refl _
    · exact (ih.cons y).trans (List.Perm.swap x y ys)

theorem perm_sortLe (le : α → α → Bool) (l : List α) : (sortLe le l).Perm l := by
  induction l with
  | nil => exact List.Perm.refl _
  | cons x xs ih => exact (perm_insertLe le x (sortLe le xs)).trans (ih.cons x)

theorem mem_sortLe {le : α → α → Bool} {a : α} {l : List α} :
    a ∈ sortLe le l ↔ a ∈ l :=
  (perm_sortLe le l).mem_iff

theorem length_sortLe (le : α → α → Bool) (l : List α) :
    (sortLe le l).length = l.length :=
  (perm_sortLe le l).length_eq

theorem mem_dedupFirst [DecidableEq α] {a : α} {l : List α} :
    a ∈ dedupFirst l ↔ a ∈ l := by
  induction l with
  | nil => simp [dedupFirst]
  | cons x xs ih =>
    simp only [dedupFirst, List.mem_cons, List.mem_filter, ih, decide_eq_true_eq]
    by_cases hax : a = x
    · simp [hax]
    · simp [hax]

theorem nodup_dedupFirst [DecidableEq α] (l : List α) : (dedupFirst l).Nodup := by
  induction l with
  | nil => simp [dedupFirst]
  | cons x xs ih =>
    simp only [dedupFirst, List.nodup_cons]
    refine ⟨fun hx => ?_, ih.filter _⟩
    rcases List.mem_filter.mp hx with ⟨-, hne⟩
    simp at hne

theorem pairwise_insertLe {le : α → α → Bool}
    (htrans : ∀ a b c, le a b = true → le b c = true → le a c = true)
    (htot : ∀ a b, le a b = true ∨ le b a = true)
    {x : α} {l : List α} (h : l.Pairwise (fun a b => le a b = true)) :
    (insertLe le x l).Pairwise (fun a b => le a b = true) := by
  induction l with
  | nil => simp [insertLe]
  | cons y ys ih =>
    rcases List.pairwise_cons.mp h with ⟨hy, hys⟩
    simp only [insertLe]
    split
    · rename_i hxy
      refine List.pairwise_cons.mpr ⟨?_, h⟩
      intro z hz
      rcases List.mem_cons.mp hz with rfl | hz
      · exact hxy
      · exact htrans x y z hxy (hy z hz)
    · rename_i hxy
      refine List.pairwise_cons.mpr ⟨?_, ih hys⟩
      intro z hz
      rcases List.mem_cons.mp ((perm_insertLe le x ys).mem_iff.mp hz) with rfl | hz
      · rcases htot y z with hyz | hzy
        · exact hyz
        · exact absurd hzy hxy
      · exact hy z hz

theorem pairwise_sortLe {le : α → α → Bool}
    (htrans : ∀ a b c, le a b = true → le b c = true → le a c = true)
    (htot : ∀ a b, le a b = true ∨ le b a = true) (l : List α) :
    (sortLe le l).Pairwise (fun a b => le a b = true) := by
  induction l with
  | nil => simp [sortLe]
  | cons x xs ih => exact pairwise_insertLe htrans htot ih

theorem loadDataAux_of_none (ex : String → Bool) (parse : String → List Row)
    (paths : List String) (h : ∀ p ∈ paths, ex p = false) :
    loadDataAux ex parse paths = none := by
  induction paths with
  | nil => rfl
  | cons p ps ih =>
    simp only [loadDataAux]
    rw [h p (List.mem_cons_self p ps)]
    exact ih fun q hq => h q (List.mem_cons_of_mem p hq)

theorem loadDataAux_of_first (ex : String → Bool) (parse : String → List Row)
    (paths : List String) (i : Nat) (hi : i < paths.length)
    (hx : ex (paths.get ⟨i, hi⟩) = true)
    (hb : ∀ j, (hj : j < i) → ex (paths.get ⟨j, Nat.lt_trans hj hi⟩) = false) :
    loadDataAux ex parse paths = some (parse (paths.get ⟨i, hi⟩)) := by
  induction paths generalizing i with
  | nil => exact absurd hi (Nat.not_lt_zero i)
  | cons p ps ih =>
    cases i with
    | zero =>
      simp only [List.get] at hx ⊢
      simp only [loadDataAux, hx, if_true]
    | succ i =>
      have hp : ex p = false := hb 0 (Nat.succ_pos i)
      simp only [loadDataAux, hp, Bool.false_eq_true, if_false]
      exact ih i (Nat.lt_of_succ_lt_succ hi) hx
        (fun j hj => hb (j + 1) (Nat.succ_lt_succ hj))

/-- C5: the loader returns the dataset parsed from the first candidate path
that exists; paths after the first existing one are never consulted (their
`ex` values are irrelevant to the result), and when no candidate path
exists the loader returns `none` (the app then surfaces an error) instead
of retrying or fetching. -/
theorem claim5_load_data (ex : String → Bool) (parse : String → List Row) :
    ((∀ p ∈ dataFiles, ex p = false) → loadData ex parse = none) ∧
    ∀ i, (hi : i < dataFiles.length) → ex (dataFiles.get ⟨i, hi⟩) = true →
      (∀ j, (hj : j < i) → ex (dataFiles.get ⟨j, Nat.lt_trans hj hi⟩) = false) →
      loadData ex parse = some (parse (dataFiles.get ⟨i, hi⟩)) := by
  constructor
  · exact loadDataAux_of_none ex parse dataFiles
  · intro i hi hx hb
    exact loadDataAux_of_first ex parse dataFiles i hi hx hb

/-- Witness for C5: a file system on which only the second candidate path
exists makes the loader parse exactly that path, and a file system with no
candidate present makes it return `none`. -/
theorem claim5_load_data_witness :
    loadData (fun p => p == "两版合并后的年报数据_完整版.xlsx") (fun _ => rowsExample)
        = some rowsExample ∧
    loadData (fun _ => false) (fun _ => rowsExample) = none := by
  constructor
  · exact (claim5_load_data (fun p => p == "两版合并后的年报数据_完整版.xlsx")
      (fun _ => rowsExample)).2 1 (by decide) (by decide) (fun j hj => by
        have hj0 : j = 0 := Nat.lt_one_iff.mp hj
        subst hj0
        rfl)
  · exact (claim5_load_data (fun _ => false) (fun _ => rowsExample)).1
      (fun p _ => rfl)

/-- C9: preprocessing (the text coercion of the id column — the identity on
an already-text column — and the sentinel `fillna` of the name column) is
idempotent: running it on an already-preprocessed table returns that table
unchanged, and the derived structures (sorted id list, sorted year list,
id→name map) built after a second run equal those built after the first. -/
theorem claim9_preprocess_idempotent (rows : List Row) :
    preprocess (preprocess rows) = preprocess rows ∧
    availableStocks (preprocess (preprocess rows)) = availableStocks (preprocess rows) ∧
    availableYears (preprocess (preprocess rows)) = availableYears (preprocess rows) ∧
    ∀ c, stockNameMap (preprocess rows) c = stockNameMap rows c := by
  have hpp : preprocess (preprocess rows) = preprocess rows := by
    simp [preprocess, List.map_map, Function.comp]
  refine ⟨hpp, by rw [hpp], by rw [hpp], fun c => ?_⟩
  simp only [stockNameMap, hpp]

/-- Counterexample to C4 as stated: in `rowsLateName` the id "1" first
appears with a missing name and later with the real name "Acme"; the code
(`fillna` before group-first) stores the sentinel for "1", while the
claim's first-non-missing rule would store "Acme". -/
theorem claim4_name_map_cex :
    stockNameMap rowsLateName "1" = some sentinel ∧
    firstNonMissingName rowsLateName "1" = some "Acme" ∧
    sentinel ≠ "Acme" := by decide

/-- C4 amended: the registry maps every entity id to the name of the FIRST
row for that id with missing names already replaced by the sentinel; for
an id whose first row has a missing name the registry therefore holds the
sentinel, even when a later row carries a real name. -/
theorem claim4_name_map_amended (rows : List Row) (c : String) :
    stockNameMap rows c =
      ((rows.filter (fun r => decide (r.stockCode = c))).head?).map
        (fun r => r.companyName.getD sentinel) := by
  induction rows with
  | nil => rfl
  | cons r rows ih =>
    simp only [stockNameMap, preprocess, List.map_cons, List.filter_cons] at *
    by_cases hc : r.stockCode = c
    · simp [hc]
    · simp only [hc, decide_eq_false hc, Bool.false_eq_true, if_false]
      exact ih

/-- C7: when (entity id, year) pairs are unique in the table, the exact
match subset for any (id, year) taken from a row of the table is exactly
that one row — in particular it has exactly one row and its index value is
the source row's index value. -/
theorem claim7_exact_match (rows : List Row)
    (h : rows.Pairwise (fun a b => a.stockCode ≠ b.stockCode ∨ a.year ≠ b.year))
    (r : Row) (hr : r ∈ rows) :
    filteredData rows r.stockCode r.year = [r] := by
  induction rows with
  | nil => cases hr
  | cons a l ih =>
    rcases List.pairwise_cons.mp h with ⟨ha, hl⟩
    rcases List.mem_cons.mp hr with rfl | hr
    · simp only [filteredData, List.filter_cons]
      rw [if_pos (by simp)]
      have hnil : l.filter (fun x => decide (x.stockCode = r.stockCode ∧ x.year = r.year)) = [] := by
        refine List.filter_eq_nil_iff.mpr fun b hb => ?_
        simp only [decide_eq_true_eq, not_and]
        intro h1 h2
        rcases ha b hb with hc | hy
        · exact hc h1.symm
        · exact hy h2.symm
      simp only [filteredData] at hnil
      rw [hnil]
    · have hna : (decide (a.stockCode = r.stockCode ∧ a.year = r.year)) = false := by
        rcases ha r hr with hc | hy
        · simp only [decide_eq_false_iff_not, not_and]
          intro h1
          exact absurd h1 hc
        · simp only [decide_eq_false_iff_not, not_and]
          intro _
          exact fun h2 => hy h2
      simp only [filteredData, List.filter_cons, hna, Bool.false_eq_true, if_false]
      exact ih hl hr

/-- Witness for C7: on the spec's two-row example the exact match for
(600003, 1999) is the single 1999 row with index 60. -/
theorem claim7_exact_match_witness :
    filteredData rowsExample "600003" 1999 = [⟨"600003", some "A", 1999, 60⟩] :=
  claim7_exact_match rowsExample (by decide) ⟨"600003", some "A", 1999, 60⟩ (by decide)

/-- C8: for an identifier not present in the table, the all-years subset
and the exact-match subset are both empty, the displayed name falls back
to the sentinel, and the per-selection metrics block is not rendered (no
error is raised — the functions are total). -/
theorem claim8_unknown_id (rows : List Row) (c : String) (y : Int)
    (h : ∀ r ∈ rows, r.stockCode ≠ c) :
    companyAllData rows c = [] ∧ filteredData rows c y = [] ∧
    displayName rows c = sentinel ∧ metricsRendered rows c y = false := by
  have hfil : rows.filter (fun r => decide (r.stockCode = c)) = [] :=
    List.filter_eq_nil_iff.mpr fun r hr => by simp [h r hr]
  have hfd : filteredData rows c y = [] :=
    List.filter_eq_nil_iff.mpr fun r hr => by simp [h r hr]
  have hpre : (preprocess rows).filter (fun r => decide (r.stockCode = c)) = [] := by
    refine List.filter_eq_nil_iff.mpr fun r hr => ?_
    rcases List.mem_map.mp hr with ⟨a, ha, rfl⟩
    simp [h a ha]
  refine ⟨?_, hfd, ?_, ?_⟩
  · simp [companyAllData, hfil, sortLe]
  · simp [displayName, stockNameMap, hpre]
  · simp [metricsRendered, hfd]

/-- Witness for C8: the code "999999" does not occur in the example table;
both subsets are empty, the sentinel is displayed, no metrics render. -/
theorem claim8_unknown_id_witness :
    companyAllData rowsExample "999999" = [] ∧
    filteredData rowsExample "999999" 1998 = [] ∧
    displayName rowsExample "999999" = sentinel ∧
    metricsRendered rowsExample "999999" 1998 = false :=
  claim8_unknown_id rowsExample "999999" 1998 (by decide)

/-- C1: when the exact-match subset is non-empty (its first row being the
selected row the code reads with `iloc[0]`), the current-selection rank is
the count of rows of the selected year whose index value is ≥ the
selected value, and 1 ≤ rank ≤ number of rows for that year. -/
theorem claim1_current_rank (rows : List Row) (c : String) (y : Int)
    (r : Row) (rest : List Row) (h : filteredData rows c y = r :: rest) :
    currentRank rows y r.indexValue =
      ((yearRows rows y).filter (fun s => decide (r.indexValue ≤ s.indexValue))).length ∧
    1 ≤ currentRank rows y r.indexValue ∧
    currentRank rows y r.indexValue ≤ (yearRows rows y).length := by
  have hr : r ∈ filteredData rows c y := h ▸ List.mem_cons_self r rest
  have hmem := List.mem_filter.mp hr
  have hy : r.year = y := (of_decide_eq_true hmem.2).2
  have hry : r ∈ yearRows rows y := List.mem_filter.mpr ⟨hmem.1, by simp [hy]⟩
  have hrf : r ∈ (yearRows rows y).filter
      (fun s => decide (r.indexValue ≤ s.indexValue)) :=
    List.mem_filter.mpr ⟨hry, by simp⟩
  exact ⟨rfl, List.length_pos.mpr (List.ne_nil_of_mem hrf), List.length_filter_le _ _⟩

/-- Witness for C1: selecting (600003, 1999) in the example table gives
rank 1 of 1. -/
theorem claim1_current_rank_witness :
    currentRank rowsExample 1999 60 =
      ((yearRows rowsExample 1999).filter
        (fun s => decide ((60:ℚ) ≤ s.indexValue))).length ∧
    1 ≤ currentRank rowsExample 1999 60 ∧
    currentRank rowsExample 1999 60 ≤ (yearRows rowsExample 1999).length :=
  claim1_current_rank rowsExample "600003" 1999 ⟨"600003", some "A", 1999, 60⟩ [] (by decide)

theorem pctChangeFrom_length (prev : ℚ) (l : List ℚ) :
    (pctChangeFrom prev l).length = l.length := by
  induction l generalizing prev with
  | nil => rfl
  | cons x xs ih => simp [pctChangeFrom, ih]

theorem pctChangeFrom_getElem (prev : ℚ) (l : List ℚ) (t : Nat) (a b : ℚ)
    (ha : (prev :: l)[t]? = some a) (hb : l[t]? = some b) :
    (pctChangeFrom prev l)[t]? = some (some ((b - a) / a * 100)) := by
  induction l generalizing prev t with
  | nil => simp at hb
  | cons x xs ih =>
    cases t with
    | zero =>
      simp only [List.getElem?_cons_zero, Option.some.injEq] at ha hb
      subst ha
      subst hb
      simp [pctChangeFrom]
    | succ t =>
      simp only [List.getElem?_cons_succ] at ha hb
      simpa [pctChangeFrom] using ih x t ha hb

/-- C3: the year-over-year change series computed from the per-year means
(taken in ascending year order) has the same length as the mean series,
its first entry is `none` (NaN, not zero), and every later entry `t+1` is
`(mean[t+1] - mean[t]) / mean[t] * 100`. -/
theorem claim3_yearly_change (rows : List Row) :
    (pctChange (yearlyMeans rows)).length = (yearlyMeans rows).length ∧
    (∀ m, (yearlyMeans rows)[0]? = some m →
      (pctChange (yearlyMeans rows))[0]? = some none) ∧
    ∀ t a b, (yearlyMeans rows)[t]? = some a → (yearlyMeans rows)[t + 1]? = some b →
      (pctChange (yearlyMeans rows))[t + 1]? = some (some ((b - a) / a * 100)) := by
  refine ⟨?_, ?_, ?_⟩
  · cases h : yearlyMeans rows with
    | nil => simp [pctChange, h]
    | cons x xs => simp [pctChange, pctChangeFrom_length]
  · intro m hm
    cases h : yearlyMeans rows with
    | nil => simp [h] at hm
    | cons x xs => simp [pctChange, h]
  · intro t a b ha hb
    cases h : yearlyMeans rows with
    | nil => simp [h] at ha
    | cons x xs =>
      rw [h] at ha hb
      simp only [List.getElem?_cons_succ] at hb
      simp only [pctChange, List.getElem?_cons_succ]
      exact pctChangeFrom_getElem x xs t a b ha hb

theorem yearlyMeans_rowsExample : yearlyMeans rowsExample = [50, 60] := by
  norm_num [yearlyMeans, availableYears, yearMean, meanIndex, yearRows, rowsExample,
    dedupFirst, sortLe, insertLe]

/-- Witness for C3: on the spec's example table the means are (50, 60) and
the change series is (none, +20%). -/
theorem claim3_yearly_change_witness :
    (pctChange (yearlyMeans rowsExample))[0]? = some none ∧
    (pctChange (yearlyMeans rowsExample))[1]? = some (some 20) := by
  refine ⟨(claim3_yearly_change rowsExample).2.1 50 (by rw [yearlyMeans_rowsExample]; rfl), ?_⟩
  have h := (claim3_yearly_change rowsExample).2.2 0 50 60
    (by rw [yearlyMeans_rowsExample]; rfl) (by rw [yearlyMeans_rowsExample]; rfl)
  have hval : ((60 : ℚ) - 50) / 50 * 100 = 20 := by norm_num
  rw [hval] at h
  exact h

theorem charsLe_cons_iff {x y : Char} {xs ys : List Char} :
    charsLe (x :: xs) (y :: ys) = true ↔ x < y ∨ (x = y ∧ charsLe xs ys = true) := by
  simp only [charsLe]
  rcases lt_trichotomy x y with h | h | h
  · simp [h]
  · subst h
    simp [lt_irrefl]
  · simp [lt_asymm h, h, ne_of_gt h]

theorem charsLe_trans : ∀ l₁ l₂ l₃ : List Char,
    charsLe l₁ l₂ = true → charsLe l₂ l₃ = true → charsLe l₁ l₃ = true
  | [], _, _, _, _ => rfl
  | _ :: _, [], _, h, _ => nomatch h
  | _ :: _, _ :: _, [], _, h => nomatch h
  | x :: xs, y :: ys, z :: zs, h₁, h₂ => by
    rcases charsLe_cons_iff.mp h₁ with hxy | ⟨rfl, hxy⟩
    · rcases charsLe_cons_iff.mp h₂ with hyz | ⟨rfl, hyz⟩
      · exact charsLe_cons_iff.mpr (Or.inl (lt_trans hxy hyz))
      · exact charsLe_cons_iff.mpr (Or.inl hxy)
    · rcases charsLe_cons_iff.mp h₂ with hyz | ⟨rfl, hyz⟩
      · exact charsLe_cons_iff.mpr (Or.inl hyz)
      · exact charsLe_cons_iff.mpr (Or.inr ⟨rfl, charsLe_trans xs ys zs hxy hyz⟩)

theorem charsLe_total : ∀ l₁ l₂ : List Char,
    charsLe l₁ l₂ = true ∨ charsLe l₂ l₁ = true
  | [], _ => Or.inl rfl
  | _ :: _, [] => Or.inr rfl
  | x :: xs, y :: ys => by
    rcases lt_trichotomy x y with h | rfl | h
    · exact Or.inl (charsLe_cons_iff.mpr (Or.inl h))
    · rcases charsLe_total xs ys with ih | ih
      · exact Or.inl (charsLe_cons_iff.mpr (Or.inr ⟨rfl, ih⟩))
      · exact Or.inr (charsLe_cons_iff.mpr (Or.inr ⟨rfl, ih⟩))
    · exact Or.inr (charsLe_cons_iff.mpr (Or.inl h))

theorem charsLe_antisymm : ∀ l₁ l₂ : List Char,
    charsLe l₁ l₂ = true → charsLe l₂ l₁ = true → l₁ = l₂
  | [], [], _, _ => rfl
  | [], _ :: _, _, h => nomatch h
  | _ :: _, [], h, _ => nomatch h
  | x :: xs, y :: ys, h₁, h₂ => by
    rcases charsLe_cons_iff.mp h₁ with hxy | ⟨rfl, hxy⟩
    · rcases charsLe_cons_iff.mp h₂ with hyx | ⟨he, -⟩
      · exact absurd hyx (lt_asymm hxy)
      · exact absurd he.symm (ne_of_lt hxy)
    · rcases charsLe_cons_iff.mp h₂ with hyx | ⟨-, hyx⟩
      · exact absurd hyx (lt_irrefl x)
      · rw [charsLe_antisymm xs ys hxy hyx]

theorem strLe_trans {a b c : String} (hab : strLe a b = true) (hbc : strLe b c = true) :
    strLe a c = true :=
  charsLe_trans a.data b.data c.data hab hbc

theorem strLe_total (a b : String) : strLe a b = true ∨ strLe b a = true :=
  charsLe_total a.data b.data

theorem strLe_antisymm {a b : String} (hab : strLe a b = true) (hba : strLe b a = true) :
    a = b := by
  cases a
  cases b
  exact congrArg String.mk (charsLe_antisymm _ _ hab hba)

theorem cutBucket_isSome_iff (v : ℚ) :
    (∃ i, cutBucket v = some i) ↔ 0 < v ∧ v ≤ 100 := by
  unfold cutBucket
  split_ifs with h1 h2 h3 h4 h5
  · exact ⟨fun _ => ⟨h1.1, by linarith [h1.2]⟩, fun _ => ⟨0, rfl⟩⟩
  · exact ⟨fun _ => ⟨by linarith [h2.1], by linarith [h2.2]⟩, fun _ => ⟨1, rfl⟩⟩
  · exact ⟨fun _ => ⟨by linarith [h3.1], by linarith [h3.2]⟩, fun _ => ⟨2, rfl⟩⟩
  · exact ⟨fun _ => ⟨by linarith [h4.1], by linarith [h4.2]⟩, fun _ => ⟨3, rfl⟩⟩
  · exact ⟨fun _ => ⟨by linarith [h5.1], h5.2⟩, fun _ => ⟨4, rfl⟩⟩
  · constructor
    · rintro ⟨i, hi⟩
      exact absurd hi (by simp)
    · rintro ⟨hv0, hv100⟩
      push_neg at h1 h2 h3 h4 h5
      linarith [h5 (h4 (h3 (h2 (h1 hv0))))]

theorem distribution_cons (r : Row) (rows : List Row) (i : Fin 5) :
    distribution (r :: rows) i =
      (if cutBucket r.indexValue = some i then 1 else 0) + distribution rows i := by
  by_cases h : cutBucket r.indexValue = some i <;>
    simp [distribution, List.filter_cons, h] <;> omega

theorem bucketTotal_cons (r : Row) (rows : List Row) :
    bucketTotal (r :: rows) =
      (if ∃ i, cutBucket r.indexValue = some i then 1 else 0) + bucketTotal rows := by
  rcases hcb : cutBucket r.indexValue with _ | j
  · rw [if_neg (by simp [hcb])]
    simp [bucketTotal, distribution_cons r rows, hcb]
  · rw [if_pos ⟨j, rfl⟩]
    simp only [bucketTotal, distribution_cons r rows, hcb, Option.some.injEq]
    fin_cases j
    · rw [if_pos (by decide), if_neg (by decide), if_neg (by decide), if_neg (by decide),
        if_neg (by decide)]
      omega
    · rw [if_neg (by decide), if_pos (by decide), if_neg (by decide), if_neg (by decide),
        if_neg (by decide)]
      omega
    · rw [if_neg (by decide), if_neg (by decide), if_pos (by decide), if_neg (by decide),
        if_neg (by decide)]
      omega
    · rw [if_neg (by decide), if_neg (by decide), if_neg (by decide), if_pos (by decide),
        if_neg (by decide)]
      omega
    · rw [if_neg (by decide), if_neg (by decide), if_neg (by decide), if_neg (by decide),
        if_pos (by decide)]
      omega

theorem bucketTotal_eq_count (rows : List Row) :
    bucketTotal rows =
      (rows.filter (fun r => decide (0 < r.indexValue ∧ r.indexValue ≤ 100))).length := by
  induction rows with
  | nil => rfl
  | cons r rows ih =>
    rw [bucketTotal_cons, ih, List.filter_cons]
    by_cases h : 0 < r.indexValue ∧ r.indexValue ≤ 100
    · rw [if_pos ((cutBucket_isSome_iff r.indexValue).mpr h)]
      simp [h]
      omega
    · rw [if_neg (fun hex => h ((cutBucket_isSome_iff r.indexValue).mp hex))]
      simp [h]

/-- Counterexample to C2 as stated: `pd.cut` with bins [0,20,40,60,80,100]
bins into RIGHT-closed intervals, so a row whose index value is exactly 0
— a value inside [0,100] — falls into no bucket and the bucket counts sum
to 0 while the table has 1 row; moreover the boundary value 20 lands in
the first bucket "0-20", not in "20-40" as the claim's [20,40) requires. -/
theorem claim2_bucket_cex :
    bucketTotal [rowZero] = 0 ∧ [rowZero].length = 1 ∧
    (0 : ℚ) ≤ rowZero.indexValue ∧ rowZero.indexValue ≤ 100 ∧
    cutBucket 0 = none ∧ cutBucket 20 = some 0 ∧ cutBucket 20 ≠ some 1 := by
  decide

/-- C2 amended: the distribution buckets index values into the five
right-closed intervals (0,20], (20,40], (40,60], (60,80], (80,100]; every
index value in (0,100] falls into exactly one bucket, and the sum of the
five bucket counts equals the number of rows whose index value lies in
(0,100] (rows at or below 0 and above 100 are excluded). -/
theorem claim2_distribution_amended (rows : List Row) :
    bucketTotal rows =
      (rows.filter (fun r => decide (0 < r.indexValue ∧ r.indexValue ≤ 100))).length ∧
    ∀ v : ℚ, 0 < v → v ≤ 100 →
      ∃ i, cutBucket v = some i ∧ ∀ j, cutBucket v = some j → j = i := by
  refine ⟨bucketTotal_eq_count rows, fun v hv0 hv100 => ?_⟩
  rcases (cutBucket_isSome_iff v).mpr ⟨hv0, hv100⟩ with ⟨i, hi⟩
  exact ⟨i, hi, fun j hj => (Option.some.inj ((hi.symm.trans hj))).symm⟩

/-- Witness for C2 (amended): on the one-row table at index 0 the count of
in-range rows is 0, matching the bucket sum, and the value 50 falls in
exactly one bucket. -/
theorem claim2_distribution_amended_witness :
    bucketTotal [rowZero] =
      ([rowZero].filter (fun r => decide (0 < r.indexValue ∧ r.indexValue ≤ 100))).length ∧
    ∃ i, cutBucket 50 = some i ∧ ∀ j, cutBucket 50 = some j → j = i :=
  ⟨(claim2_distribution_amended [rowZero]).1,
   (claim2_distribution_amended [rowZero]).2 50 (by norm_num) (by norm_num)⟩

/-! ### The top-N ranking (C6, C10) -/

theorem pairwise_strict_availableStocks (rows : List Row) :
    (availableStocks rows).Pairwise (fun a b => strLe a b = true ∧ a ≠ b) := by
  have hle : (availableStocks rows).Pairwise (fun a b => strLe a b = true) := by
    refine pairwise_sortLe ?_ strLe_total _
    exact fun a b c hab hbc => strLe_trans hab hbc
  have hnd : (availableStocks rows).Nodup := by
    show (sortLe strLe (dedupFirst (rows.map (·.stockCode)))).Nodup
    exact ((perm_sortLe strLe (dedupFirst (rows.map (·.stockCode)))).nodup_iff).mpr
      (nodup_dedupFirst _)
  exact (hle.and hnd).imp fun hab => ⟨hab.1, hab.2⟩

theorem pairwise_fst_groupMeans (rows : List Row) :
    (groupMeans rows).Pairwise (fun p q => strLe p.1 q.1 = true ∧ p.1 ≠ q.1) :=
  (List.pairwise_map).mpr ((pairwise_strict_availableStocks rows).imp fun h => h)

theorem snd_eq_stockMean {rows : List Row} {p : String × ℚ}
    (hp : p ∈ groupMeans rows) : p.2 = stockMean rows p.1 := by
  rcases List.mem_map.mp hp with ⟨c, -, rfl⟩
  rfl

theorem pairwise_insertDesc {x : String × ℚ} {l : List (String × ℚ)}
    (hx : ∀ q ∈ l, x.2 = q.2 → strLe x.1 q.1 = true ∧ x.1 ≠ q.1)
    (h : l.Pairwise rankRel) :
    (insertLe (fun a b => decide (b.2 ≤ a.2)) x l).Pairwise rankRel := by
  induction l with
  | nil => exact List.pairwise_singleton rankRel x
  | cons y ys ih =>
    rcases List.pairwise_cons.mp h with ⟨hy, hys⟩
    simp only [insertLe]
    split
    · rename_i hxy
      have hyx : y.2 ≤ x.2 := of_decide_eq_true hxy
      refine List.pairwise_cons.mpr ⟨?_, h⟩
      intro z hz
      rcases List.mem_cons.mp hz with rfl | hz
      · exact ⟨hyx, hx z (List.mem_cons_self z ys)⟩
      · exact ⟨le_trans (hy z hz).1 hyx, hx z (List.mem_cons_of_mem y hz)⟩
    · rename_i hxy
      have hlt : x.2 < y.2 := lt_of_not_le fun hyx => hxy (decide_eq_true hyx)
      refine List.pairwise_cons.mpr ⟨?_, ih (fun q hq => hx q (List.mem_cons_of_mem y hq)) hys⟩
      intro z hz
      rcases List.mem_cons.mp
          ((perm_insertLe (fun a b => decide (b.2 ≤ a.2)) x ys).mem_iff.mp hz) with rfl | hz
      · exact ⟨le_of_lt hlt, fun he => absurd he.symm (ne_of_lt hlt)⟩
      · exact hy z hz

theorem pairwise_sortDesc {l : List (String × ℚ)}
    (h : l.Pairwise (fun p q => strLe p.1 q.1 = true ∧ p.1 ≠ q.1)) :
    (sortLe (fun a b => decide (b.2 ≤ a.2)) l).Pairwise rankRel := by
  induction l with
  | nil => exact List.Pairwise.nil
  | cons x xs ih =>
    rcases List.pairwise_cons.mp h with ⟨hx, hxs⟩
    exact pairwise_insertDesc (fun q hq _ => hx q (mem_sortLe.mp hq)) (ih hxs)

/-- Counterexample to C6 as stated: in `rowsTie`, companies "B" and "A"
have exactly equal means and "B" appears first in the table; the code's
top-20 list (built on the key-SORTED grouped series) is ["A", "B"], while
breaking the tie by order of first appearance in the table, as the claim
states, would give ["B", "A"]. -/
theorem claim6_topn_cex :
    stockMean rowsTie "A" = stockMean rowsTie "B" ∧
    nlargestCodes 20 (groupMeans rowsTie) = ["A", "B"] ∧
    nlargestCodes 20 (groupMeansFirstSeen rowsTie) = ["B", "A"] := by
  have hA : stockRows rowsTie "A" = [⟨"A", some "a", 2000, 50⟩] := by decide
  have hB : stockRows rowsTie "B" = [⟨"B", some "b", 2000, 50⟩] := by decide
  have hmA : stockMean rowsTie "A" = 50 := by
    rw [stockMean, hA]
    norm_num [meanIndex]
  have hmB : stockMean rowsTie "B" = 50 := by
    rw [stockMean, hB]
    norm_num [meanIndex]
  have hgm : groupMeans rowsTie = [("A", 50), ("B", 50)] := by
    have hs : availableStocks rowsTie = ["A", "B"] := by decide
    rw [groupMeans, hs]
    simp [hmA, hmB]
  have hgf : groupMeansFirstSeen rowsTie = [("B", 50), ("A", 50)] := by
    have hs : dedupFirst (rowsTie.map (·.stockCode)) = ["B", "A"] := by decide
    rw [groupMeansFirstSeen, hs]
    simp [hmA, hmB]
  refine ⟨hmA.trans hmB.symm, ?_, ?_⟩
  · rw [hgm]
    decide
  · rw [hgf]
    decide

/-- C6 amended: for every N, the top-N list has length
min(N, number of distinct identifiers) and is sorted by descending mean
index value; EXACT ties are broken by ascending identifier order (the
position of the keys in the key-sorted grouped series), not by order of
first appearance in the table. -/
theorem claim6_topn_amended (rows : List Row) (n : Nat) :
    (nlargestCodes n (groupMeans rows)).length = min n (availableStocks rows).length ∧
    (nlargestCodes n (groupMeans rows)).Pairwise
      (fun a b => stockMean rows b ≤ stockMean rows a ∧
        (stockMean rows a = stockMean rows b → strLe a b = true ∧ a ≠ b)) := by
  constructor
  · simp [nlargestCodes, List.length_take, length_sortLe, groupMeans]
  · have htake : (((sortLe (fun a b => decide (b.2 ≤ a.2)) (groupMeans rows))).take n).Pairwise
        rankRel :=
      (pairwise_sortDesc (pairwise_fst_groupMeans rows)).sublist (List.take_sublist n _)
    refine (List.pairwise_map).mpr (List.Pairwise.imp_of_mem ?_ htake)
    intro p q hp hq hpq
    have hp2 := snd_eq_stockMean (mem_sortLe.mp (List.mem_of_mem_take hp))
    have hq2 := snd_eq_stockMean (mem_sortLe.mp (List.mem_of_mem_take hq))
    refine ⟨by rw [← hp2, ← hq2]; exact hpq.1, fun he => hpq.2 (by rw [hp2, hq2, he])⟩

/-- Witness for C6 (amended), instantiated at the tie table and N = 20. -/
theorem claim6_topn_amended_witness :
    (nlargestCodes 20 (groupMeans rowsTie)).length = min 20 (availableStocks rowsTie).length ∧
    (nlargestCodes 20 (groupMeans rowsTie)).Pairwise
      (fun a b => stockMean rowsTie b ≤ stockMean rowsTie a ∧
        (stockMean rowsTie a = stockMean rowsTie b → strLe a b = true ∧ a ≠ b)) :=
  claim6_topn_amended rowsTie 20

theorem mem_nlargestCodes {n : Nat} {l : List (String × ℚ)} {c : String}
    (hc : c ∈ nlargestCodes n l) : ∃ p ∈ l, p.1 = c := by
  rcases List.mem_map.mp hc with ⟨p, hp, rfl⟩
  exact ⟨p, mem_sortLe.mp (List.mem_of_mem_take hp), rfl⟩

/-- C10: every identifier in the top-30-by-mean list is a row key of the
entity-by-year pivot table built from the same table, so the heatmap's
row selection `pivot_data.loc[top_stocks]` is always defined. -/
theorem claim10_top30_in_pivot (rows : List Row) (h : rows ≠ []) (c : String)
    (hc : c ∈ topStocks rows) : c ∈ pivotIndex rows := by
  rcases mem_nlargestCodes hc with ⟨p, hp, rfl⟩
  rcases List.mem_map.mp hp with ⟨c0, hc0, rfl⟩
  exact hc0

/-- Witness for C10: in the two-row table for id "1", the single top-30
entry "1" is a pivot row key. -/
theorem claim10_top30_in_pivot_witness : "1" ∈ pivotIndex rowsLateName :=
  claim10_top30_in_pivot rowsLateName (by decide) "1" (by decide)

end DTIApp
